import Mathlib

/-
Verification development for the hdo-transcript-search Search API
(server/src/search-api.js, given here as src/unnamed/part_001).

The JavaScript class SearchAPI is shallowly embedded: the mutable LRU
cache becomes explicit state passing, promises become Except values, and
JavaScript objects used as string-keyed maps become association lists in
insertion order (mirroring JS property-insertion order, which both
JSON.stringify and Object.keys observe).
-/

deriving instance DecidableEq for Except

namespace HdoSearch

/-- Model of the JavaScript scalar values that appear in the option bags
and parsed aggregations of the source: strings, numbers (the source only
stores integral counts and offsets) and booleans. -/
inductive JVal where
  | s (v : String)
  | n (v : Int)
  | b (v : Bool)
deriving DecidableEq, Repr

/-- JavaScript truthiness on the modelled scalars: empty string, zero and
false are falsy. -/
def jsTruthy : JVal → Bool
  | .s v => v ≠ ""
  | .n v => v ≠ 0
  | .b v => v

/-- Template-literal stringification of a scalar, as in the backtick
string of the source's error message. -/
def JVal.display : JVal → String
  | .s v => v
  | .n v => toString v
  | .b v => if v then "true" else "false"

/-- A JavaScript object in insertion order: an association list from
property names to values.  Used for the opts bag. -/
def Opts := List (String × JVal)
deriving DecidableEq, Repr

/-- Property lookup on a JS-object model: the value at the first (and,
under the objects the source builds, only) occurrence of the key. -/
def assocGet {β : Type} (m : List (String × β)) (k : String) : Option β :=
  (m.find? (fun p => p.1 == k)).map (fun p => p.2)

/-- Property assignment on a JS-object model: an existing key is updated
in place (keeping its position), a new key is appended — exactly the
insertion-order semantics of a JavaScript object write. -/
def assocSet {β : Type} (m : List (String × β)) (k : String) (v : β) : List (String × β) :=
  if m.any (fun p => p.1 == k) then
    m.map (fun p => if p.1 == k then (k, v) else p)
  else
    m ++ [(k, v)]

/-- Reading a property of the opts bag (opts.interval, opts.query, ...). -/
def objGet (o : Opts) (k : String) : Option JVal := assocGet o k

/-- Writing a property of the opts bag (opts.interval = ...). -/
def objSet (o : Opts) (k : String) (v : JVal) : Opts := assocSet o k v

/-- Modelled from the spec's external-interface boundary: the JSON string
escaping performed by the JavaScript builtin JSON.stringify on the plain
option strings the service receives (quote and backslash escapes; the
control-character escapes are elided because the modelled inputs are
printable). -/
def jsonEscapeChar (c : Char) : List Char :=
  if c = '"' then ['\\', '"']
  else if c = '\\' then ['\\', '\\']
  else [c]

/-- Escape the characters of a string for a JSON string literal. -/
def jsonEscape (s : String) : String :=
  ⟨s.data.foldr (fun c acc => jsonEscapeChar c ++ acc) []⟩

/-- A JSON string literal. -/
def jsonQuote (s : String) : String := "\"" ++ jsonEscape s ++ "\""

/-- JSON serialization of one scalar value. -/
def JVal.stringify : JVal → String
  | .s v => jsonQuote v
  | .n v => toString v
  | .b v => if v then "true" else "false"

/-- Modelled from the spec's external-interface boundary: JSON.stringify
of an options object.  Properties are serialized in insertion order —
JSON.stringify has no canonical reordering. -/
def jsonStringify (o : Opts) : String :=
  "\x7b" ++ String.intercalate "," (o.map (fun p => jsonQuote p.1 ++ ":" ++ JVal.stringify p.2)) ++ "\x7d"

/-- Cache key of SearchAPI.cached: name + ':' + JSON.stringify(data). -/
def cacheKey (name : String) (data : Opts) : String :=
  name ++ ":" ++ jsonStringify data

/-- The LRU cache of the constructor, modelled at the get/set interface
the source exercises (the capacity bound of 500 entries is never reached
in any property below, so eviction is not modelled). -/
structure CacheState (V : Type) where
  entries : List (String × V)
deriving DecidableEq, Repr

/-- this.cache.get(key). -/
def cacheGet {V : Type} (c : CacheState V) (k : String) : Option V :=
  assocGet c.entries k

/-- this.cache.set(key, value). -/
def cacheSet {V : Type} (c : CacheState V) (k : String) (v : V) : CacheState V :=
  ⟨assocSet c.entries k v⟩

/-- Outcome of one cached(name, data, fetchFunc) call: the settled
promise, the cache afterwards, and how many times fetchFunc ran. -/
structure CallOut (V : Type) where
  result : Except String V
  cache : CacheState V
  fetchCount : Nat
deriving DecidableEq, Repr

/-- SearchAPI.cached.  The stored values are always objects (summary or
hits responses), which are truthy, so the source's `if (hit)` test is the
presence test of the model.  On a miss the fetch promise's resolution is
stored by _cacheResponse and returned; a rejection propagates and stores
nothing. -/
def cached {V : Type} (c : CacheState V) (name : String) (data : Opts)
    (fetch : Except String V) : CallOut V :=
  let key := cacheKey name data
  match cacheGet c key with
  | some hit => ⟨.ok hit, c, 0⟩
  | none =>
    match fetch with
    | .ok v => ⟨.ok v, cacheSet c key v, 1⟩
    | .error e => ⟨.error e, c, 1⟩

/-- ALLOWED_INTERVALS of the source. -/
def ALLOWED_INTERVALS : List String := ["month", "12w", "24w", "year"]

/-- SearchAPI._intervalFrom: opts.interval || 'month', then membership in
ALLOWED_INTERVALS, else a thrown Error (modelled as Except.error). -/
def intervalFrom (opts : Opts) : Except String String :=
  let interval : JVal :=
    match objGet opts "interval" with
    | some v => if jsTruthy v then v else .s "month"
    | none => .s "month"
  match interval with
  | .s v =>
    if ALLOWED_INTERVALS.contains v then .ok v
    else .error ("invalid interval: " ++ v)
  | v => .error ("invalid interval: " ++ JVal.display v)

/-- A bucket-count map produced by _parseAggregation: a JS object from
effective bucket key to doc_count, in insertion order. -/
def CountMap := List (String × Nat)
deriving DecidableEq, Repr

/-- Reading `m[key] || 0.0` on a count map: a missing key counts as 0 (a
stored 0 is falsy in JS and also yields 0, so the model agrees). -/
def countsGet (m : CountMap) (k : String) : Nat :=
  (assocGet m k).getD 0

/-- Object.keys of a count map. -/
def countKeys (m : CountMap) : List String := m.map (fun p => p.1)

/-- The first-occurrence deduplication performed by
`keys.filter((k, i) => keys.indexOf(k) === i)` in _calculatePercentages:
each key is kept at its first position only.  Implemented as a fold so
it is structurally computable. -/
def dedupFirst (ks : List String) : List String :=
  ks.foldl (fun acc k => if acc.contains k then acc else acc ++ [k]) []

/-- Metadata of one speaker, the `_source` of the nested top-hit of the
filtered people aggregation (external_id and party). -/
structure PersonMeta where
  external_id : String
  party : String
deriving DecidableEq, Repr

/-- A PercentageEntry of _calculatePercentages, plus the `meta` property
that _buildResponse later assigns onto people entries. -/
structure Entry where
  key : String
  count : Nat
  total : Nat
  pct : Rat
  meta : Option PersonMeta := none
deriving DecidableEq, Repr

/-- SearchAPI._calculatePercentages.  The opts argument of the source is
only ever used for its combineKeys property, modelled as the Bool
argument. -/
def calculatePercentages (subset set : CountMap) (combineKeys : Bool) : List Entry :=
  (if combineKeys then dedupFirst (countKeys subset ++ countKeys set)
   else countKeys subset).map
    (fun key =>
      { key := key
        count := countsGet subset key
        total := countsGet set key
        pct := if countsGet set key = 0 then 0
               else (countsGet subset key : Rat) / (countsGet set key : Rat) * 100 })

/-- A raw aggregation bucket: key, optional key_as_string (date
histograms report both), and doc_count. -/
structure Bucket where
  key : String
  key_as_string : Option String := none
  doc_count : Nat
deriving DecidableEq, Repr

/-- The effective key `bucket.key_as_string || bucket.key` used by
_parseAggregation (an empty key_as_string is falsy and falls back). -/
def bucketKey (b : Bucket) : String :=
  match b.key_as_string with
  | some s => if s = "" then b.key else s
  | none => b.key

/-- SearchAPI._parseAggregation: fold the buckets into a JS object from
effective key to doc_count. -/
def parseAggregation (buckets : List Bucket) : CountMap :=
  buckets.foldl (fun m b => assocSet m (bucketKey b) b.doc_count) []

/-- A bucket of the filteredPeople aggregation: a terms bucket carrying
the single top-hit `person.hits.hits[0]._source` (the top_hits
sub-aggregation of size 1 always reports one hit for a non-empty
bucket). -/
structure PersonBucket where
  key : String
  doc_count : Nat
  person : PersonMeta
deriving DecidableEq, Repr

/-- View of a people bucket as a plain terms bucket, as _parseAggregation
reads it (terms buckets carry no key_as_string). -/
def PersonBucket.toBucket (b : PersonBucket) : Bucket :=
  { key := b.key, key_as_string := none, doc_count := b.doc_count }

/-- SearchAPI._buildPersonMap: map[bucket.key] = top-hit source. -/
def buildPersonMap (buckets : List PersonBucket) : List (String × PersonMeta) :=
  buckets.foldl (fun m b => assocSet m b.key b.person) []

/-- The aggregations part of the index response consumed by
_buildResponse, plus hits.total. -/
structure AggResponse where
  total : Nat
  timeline : List Bucket
  parties : List Bucket
  people : List Bucket
  filteredTimeline : List Bucket
  filteredParties : List Bucket
  filteredPeople : List PersonBucket
deriving DecidableEq, Repr

/-- The SummaryResult shape returned by _buildResponse: counts.total,
the trimmed timeline, the current parties, and the two top-20 people
views (people.count and people.pct of the source). -/
structure SummaryResult where
  total : Nat
  timeline : List Entry
  parties : List Entry
  peopleByCount : List Entry
  peopleByPct : List Entry
deriving DecidableEq, Repr

/-- The people PercentageEntries of _buildResponse before meta
attachment: filtered people (subset) against unfiltered people (set),
subset keys only. -/
def peopleEntries (r : AggResponse) : List Entry :=
  calculatePercentages
    (parseAggregation (r.filteredPeople.map PersonBucket.toBucket))
    (parseAggregation r.people)
    false

/-- The timeline PercentageEntries of _buildResponse before sorting:
filtered timeline against unfiltered timeline with combineKeys. -/
def timelineUnsorted (r : AggResponse) : List Entry :=
  calculatePercentages
    (parseAggregation r.filteredTimeline)
    (parseAggregation r.timeline)
    true

/-- The chronological comparison of the source's timeline sort: the
comparator `moment(a.key).valueOf() - moment(b.key).valueOf()` sorts
ascending by the instant a key denotes.  The moment(...).valueOf parse is
external; it enters the model as the `instant` valuation. -/
def timelineLe (instant : String → Int) (a b : Entry) : Prop :=
  instant a.key ≤ instant b.key

instance (instant : String → Int) : DecidableRel (timelineLe instant) :=
  fun a b => inferInstanceAs (Decidable (instant a.key ≤ instant b.key))

instance (instant : String → Int) : IsTotal Entry (timelineLe instant) :=
  ⟨fun a b => Int.le_total (instant a.key) (instant b.key)⟩

instance (instant : String → Int) : IsTrans Entry (timelineLe instant) :=
  ⟨fun _ _ _ h1 h2 => le_trans h1 h2⟩

/-- The sorted timeline entries, before the slice(1, -1) trim. -/
def timelineSorted (instant : String → Int) (r : AggResponse) : List Entry :=
  (timelineUnsorted r).insertionSort (timelineLe instant)

/-- The parties PercentageEntries before the current-parties filter. -/
def partiesEntriesAll (r : AggResponse) : List Entry :=
  calculatePercentages
    (parseAggregation r.filteredParties)
    (parseAggregation r.parties)
    false

/-- The parties list of _buildResponse: entries whose key
Parties.isCurrent accepts.  Parties is the shared/Parties module, which
is outside the given sources; it enters the model as the `isCurrent`
predicate. -/
def partiesEntries (isCurrent : String → Bool) (r : AggResponse) : List Entry :=
  (partiesEntriesAll r).filter (fun e => isCurrent e.key)

/-- Descending-by-count comparison of `(a, b) => b.count - a.count`: a
stays before b when the comparator is nonpositive. -/
def byCountDesc (a b : Entry) : Prop := b.count ≤ a.count

instance : DecidableRel byCountDesc :=
  fun a b => inferInstanceAs (Decidable (b.count ≤ a.count))

/-- Descending-by-pct comparison of `(a, b) => b.pct - a.pct`. -/
def byPctDesc (a b : Entry) : Prop := b.pct ≤ a.pct

instance : DecidableRel byPctDesc :=
  fun a b => inferInstanceAs (Decidable (b.pct ≤ a.pct))

/-- SearchAPI._buildResponse.  The in-place Array.prototype.sort calls
become stable sorts; the second people sort of the source runs on the
array the first sort left behind, which the model reproduces. -/
def buildResponse (isCurrent : String → Bool) (instant : String → Int)
    (r : AggResponse) : SummaryResult :=
  let personMap := buildPersonMap r.filteredPeople
  let people := (peopleEntries r).map
    (fun d => { d with meta := assocGet personMap d.key })
  let timeline := ((timelineSorted instant r).drop 1).dropLast
  let parties := partiesEntries isCurrent r
  let peopleByCount := people.insertionSort byCountDesc
  let peopleByPct := peopleByCount.insertionSort byPctDesc
  { total := r.total
    timeline := timeline
    parties := parties
    peopleByCount := peopleByCount.take 20
    peopleByPct := peopleByPct.take 20 }

/-- A raw index hit as _buildHit reads it: _id, _score, the optional
highlight object's text fragments, and the document _source. -/
structure RawHit where
  id : String
  score : Rat
  highlight : Option (List String)
  source : List (String × JVal)
deriving DecidableEq, Repr

/-- A built hit.  The highlight field is Option String: `some s` is the
JS string s, `none` is the JS undefined that `hit.highlight.text[0]`
produces on an empty fragment array.  The Object.assign merge with
_source is modelled as the separate source field, since speech documents
carry none of the id/score/highlight property names. -/
structure Hit where
  id : String
  score : Rat
  highlight : Option String
  source : List (String × JVal)
deriving DecidableEq, Repr

/-- SearchAPI._buildHit: highlight is hit.highlight ? hit.highlight.text[0] : ''. -/
def buildHit (h : RawHit) : Hit :=
  { id := h.id
    score := h.score
    highlight :=
      match h.highlight with
      | some frags => frags.head?
      | none => some ""
    source := h.source }

/-- The raw ranked-search response consumed by the hits closure:
response.hits.hits and response.hits.total. -/
structure RawHitsResponse where
  hits : List RawHit
  total : Nat
deriving DecidableEq, Repr

/-- The HitsResult shape built inside SearchAPI.hits. -/
structure HitsResult where
  query : Option JVal
  hits : List Hit
  total : Nat
deriving DecidableEq, Repr

/-- The response-shaping closure of SearchAPI.hits, reading opts.query
from the (already interval-normalized) opts object. -/
def buildHitsResult (opts : Opts) (r : RawHitsResponse) : HitsResult :=
  { query := objGet opts "query"
    hits := r.hits.map buildHit
    total := r.total }

/-- Outcome of one summary/hits call: the settled promise, the cache
afterwards, the number of fetch executions, and the caller's opts object
as the call left it. -/
structure CallResult (V : Type) where
  result : Except String V
  cache : CacheState V
  fetchCount : Nat
  opts : Opts
deriving DecidableEq, Repr

/-- SearchAPI.summary: normalize the interval into opts (a thrown
interval error escapes before the assignment and before any fetch), then
go through cached with the aggregation fetch.  The index round trip is
the `search` argument; its success value is shaped by _buildResponse. -/
def summaryRun (isCurrent : String → Bool) (instant : String → Int)
    (st : CacheState SummaryResult) (opts : Opts)
    (search : Except String AggResponse) : CallResult SummaryResult :=
  match intervalFrom opts with
  | .error e => ⟨.error e, st, 0, opts⟩
  | .ok iv =>
    let optsW := objSet opts "interval" (JVal.s iv)
    let out := cached st "summary" optsW (search.map (buildResponse isCurrent instant))
    ⟨out.result, out.cache, out.fetchCount, optsW⟩

/-- SearchAPI.hits: same structure as summary with the hits fetch. -/
def hitsRun (st : CacheState HitsResult) (opts : Opts)
    (search : Except String RawHitsResponse) : CallResult HitsResult :=
  match intervalFrom opts with
  | .error e => ⟨.error e, st, 0, opts⟩
  | .ok iv =>
    let optsW := objSet opts "interval" (JVal.s iv)
    let out := cached st "hits" optsW (search.map (buildHitsResult optsW))
    ⟨out.result, out.cache, out.fetchCount, optsW⟩

/-- A speech document as getContext sees it: the transcript id and order
fields the filter touches, plus the text payload. -/
structure Doc where
  transcript : String
  order : Int
  text : String
deriving DecidableEq, Repr

/-- The filter getContext sends: transcript term AND order range. -/
def ctxPred (id : String) (s e : Int) (d : Doc) : Bool :=
  d.transcript == id && decide (s ≤ d.order) && decide (d.order ≤ e)

/-- Ascending order-field comparison of the `sort: 'order'` clause. -/
def byOrderAsc (a b : Doc) : Prop := a.order ≤ b.order

instance : DecidableRel byOrderAsc :=
  fun a b => inferInstanceAs (Decidable (a.order ≤ b.order))

instance : IsTotal Doc byOrderAsc :=
  ⟨fun a b => Int.le_total a.order b.order⟩

instance : IsTrans Doc byOrderAsc :=
  ⟨fun _ _ _ h1 h2 => le_trans h1 h2⟩

/-- Modelled from the spec: the external search index's evaluation of the
body getContext sends (a term filter on transcript and an inclusive
range filter on order, sorted ascending by order, truncated to the
requested size).  The index itself is outside the sources; this is its
documented filter/sort/size semantics over a document store. -/
def esOrderedSlice (store : List Doc) (id : String) (s e : Int) (size : Nat) : List Doc :=
  ((store.filter (ctxPred id s e)).insertionSort byOrderAsc).take size

/-- SearchAPI.getContext: size is end - start + 1, the hits are mapped to
their _source (the store model returns the documents themselves). -/
def getContext (store : List Doc) (id : String) (s e : Int) : List Doc :=
  esOrderedSlice store id s e (e - s + 1).toNat

/-- Concrete current-party predicate used in concrete instantiations. -/
def exIsCurrent : String → Bool := fun p => p == "New"

/-- Concrete key-instant valuation used in concrete instantiations: the
length of the key, so the keys t0, t1, t2 below are chronological. -/
def exInstant : String → Int := fun k => (k.length : Int)

/-- Concrete aggregation response with a three-bucket timeline span. -/
def exAgg : AggResponse :=
  { total := 9
    timeline := [⟨"1", none, 2⟩, ⟨"22", none, 4⟩, ⟨"333", none, 6⟩]
    parties := []
    people := []
    filteredTimeline := [⟨"1", none, 1⟩, ⟨"22", none, 2⟩, ⟨"333", none, 3⟩]
    filteredParties := []
    filteredPeople := [] }

/-- Concrete aggregation response whose filtered parties aggregation
holds one key that the current-party predicate rejects. -/
def exAgg2 : AggResponse :=
  { total := 5
    timeline := []
    parties := [⟨"Old", none, 10⟩]
    people := []
    filteredTimeline := []
    filteredParties := [⟨"Old", none, 5⟩]
    filteredPeople := [] }

/-- Concrete aggregation response whose unfiltered timeline holds a
bucket key that the filtered timeline lacks. -/
def exAgg3 : AggResponse :=
  { total := 20
    timeline := [⟨"1", none, 2⟩, ⟨"22", none, 4⟩, ⟨"333", none, 6⟩, ⟨"4444", none, 8⟩]
    parties := []
    people := []
    filteredTimeline := [⟨"1", none, 1⟩, ⟨"22", none, 2⟩, ⟨"333", none, 3⟩]
    filteredParties := []
    filteredPeople := [] }

/-- Concrete document store used for getContext instantiations. -/
def exStore : List Doc :=
  [⟨"T1", 1, "a"⟩, ⟨"T1", 5, "e"⟩, ⟨"T1", 3, "c"⟩, ⟨"T1", 4, "d"⟩,
   ⟨"T1", 6, "f"⟩, ⟨"T2", 3, "z"⟩]

/-! Helper lemmas about the JS-object (association list) model. -/

theorem assocGet_nil {β : Type} (k : String) :
    assocGet ([] : List (String × β)) k = none := rfl

theorem assocGet_cons {β : Type} (p : String × β) (t : List (String × β)) (k : String) :
    assocGet (p :: t) k = if p.1 == k then some p.2 else assocGet t k := by
  cases h : p.1 == k <;> simp [assocGet, List.find?_cons, h]

theorem assocSet_cons {β : Type} (p : String × β) (t : List (String × β)) (k : String) (v : β) :
    assocSet (p :: t) k v =
      if p.1 == k then (k, v) :: t.map (fun q => if q.1 == k then (k, v) else q)
      else p :: assocSet t k v := by
  cases h : p.1 == k
  · have hne : ¬p.1 = k := by simpa using h
    cases h2 : t.any (fun q => q.1 == k) <;>
      simp [assocSet, List.any_cons, h, h2, hne]
  · have heq : p.1 = k := by simpa using h
    simp [assocSet, List.any_cons, h, heq]

theorem assocGet_assocSet_self {β : Type} (m : List (String × β)) (k : String) (v : β) :
    assocGet (assocSet m k v) k = some v := by
  induction m with
  | nil => simp [assocSet, assocGet, List.find?]
  | cons p t ih =>
    rw [assocSet_cons]
    cases h : p.1 == k
    · simp [h, assocGet_cons, ih]
    · simp [assocGet_cons]

theorem keys_assocSet {β : Type} (m : List (String × β)) (k : String) (v : β) :
    (assocSet m k v).map (fun p => p.1) =
      if m.any (fun p => p.1 == k) then m.map (fun p => p.1)
      else m.map (fun p => p.1) ++ [k] := by
  unfold assocSet
  cases h : m.any (fun p => p.1 == k) <;> simp
  intro a b hab
  by_cases hak : a = k <;> simp [hak]

theorem nodup_keys_assocSet {β : Type} (m : List (String × β)) (k : String) (v : β)
    (h : (m.map (fun p => p.1)).Nodup) :
    ((assocSet m k v).map (fun p => p.1)).Nodup := by
  rw [keys_assocSet]
  cases hany : m.any (fun p => p.1 == k)
  · rw [if_neg (by simp)]
    rw [List.nodup_append]
    refine ⟨h, List.nodup_singleton k, ?_⟩
    rw [List.disjoint_singleton]
    intro hk
    rcases List.mem_map.mp hk with ⟨p, hp, hpk⟩
    have h2 := (List.any_eq_false.mp hany) p hp
    simp only [beq_iff_eq] at h2
    exact h2 hpk
  · rw [if_pos rfl]
    exact h

theorem nodup_countKeys_parseAggregation (buckets : List Bucket) :
    (countKeys (parseAggregation buckets)).Nodup := by
  have main : ∀ (l : List Bucket) (m : CountMap), (m.map (fun p => p.1)).Nodup →
      ((l.foldl (fun m b => assocSet m (bucketKey b) b.doc_count) m).map (fun p => p.1)).Nodup := by
    intro l
    induction l with
    | nil => intro m hm; simpa using hm
    | cons b t ih =>
      intro m hm
      exact ih _ (nodup_keys_assocSet m (bucketKey b) b.doc_count hm)
  simpa [countKeys, parseAggregation] using main buckets [] (by simp)

theorem dedupFirst_step_mem (acc : List String) (k x : String) :
    x ∈ (if acc.contains k then acc else acc ++ [k]) ↔ x ∈ acc ∨ x = k := by
  cases h : acc.contains k <;> simp [h]
  intro hx
  rw [hx]
  exact List.mem_of_elem_eq_true h

theorem dedupFirst_go_mem (l : List String) :
    ∀ (acc : List String) (x : String),
      (x ∈ l.foldl (fun acc k => if acc.contains k then acc else acc ++ [k]) acc) ↔
        x ∈ acc ∨ x ∈ l := by
  induction l with
  | nil => intro acc x; simp
  | cons k t ih =>
    intro acc x
    rw [List.foldl_cons, ih, dedupFirst_step_mem]
    simp [List.mem_cons]
    tauto

theorem mem_dedupFirst (l : List String) (x : String) :
    x ∈ dedupFirst l ↔ x ∈ l := by
  simpa [dedupFirst] using dedupFirst_go_mem l [] x

theorem dedupFirst_go_nodup (l : List String) :
    ∀ (acc : List String), acc.Nodup →
      (l.foldl (fun acc k => if acc.contains k then acc else acc ++ [k]) acc).Nodup := by
  induction l with
  | nil => intro acc hacc; simpa using hacc
  | cons k t ih =>
    intro acc hacc
    rw [List.foldl_cons]
    refine ih _ ?_
    cases h : acc.contains k
    · rw [if_neg (by simp)]
      rw [List.nodup_append]
      refine ⟨hacc, List.nodup_singleton k, ?_⟩
      rw [List.disjoint_singleton]
      intro hk
      have hc : acc.contains k = true := List.elem_eq_true_of_mem hk
      rw [h] at hc
      exact Bool.false_ne_true hc
    · rw [if_pos rfl]
      exact hacc

theorem nodup_dedupFirst (l : List String) : (dedupFirst l).Nodup :=
  dedupFirst_go_nodup l [] List.nodup_nil

theorem cacheGet_cacheSet_self {V : Type} (c : CacheState V) (k : String) (v : V) :
    cacheGet (cacheSet c k v) k = some v :=
  assocGet_assocSet_self c.entries k v

/-! Lemmas about the entries _calculatePercentages emits. -/

theorem map_key_calculatePercentages (subset set : CountMap) (ck : Bool) :
    (calculatePercentages subset set ck).map Entry.key =
      if ck then dedupFirst (countKeys subset ++ countKeys set) else countKeys subset := by
  cases ck <;>
    simp only [calculatePercentages, Bool.false_eq_true, if_false, if_true, List.map_map] <;>
    exact (List.map_congr_left fun a _ => rfl).trans (List.map_id _)

theorem entry_fields_calculatePercentages (subset set : CountMap) (ck : Bool) :
    ∀ e ∈ calculatePercentages subset set ck,
      e.count = countsGet subset e.key ∧ e.total = countsGet set e.key ∧
      e.pct = (if e.total = 0 then 0 else (e.count : Rat) / (e.total : Rat) * 100) := by
  intro e he
  rcases List.mem_map.mp he with ⟨k, hk, hek⟩
  subst hek
  simp

/-! Lemmas about _intervalFrom. -/

theorem intervalFrom_absent (opts : Opts) (h : objGet opts "interval" = none) :
    intervalFrom opts = Except.ok "month" := by
  simp [intervalFrom, h, ALLOWED_INTERVALS]

theorem intervalFrom_falsy (opts : Opts) (v : JVal)
    (h : objGet opts "interval" = some v) (hv : jsTruthy v = false) :
    intervalFrom opts = Except.ok "month" := by
  simp [intervalFrom, h, hv, ALLOWED_INTERVALS]

theorem intervalFrom_invalid (opts : Opts) (s : String)
    (h : objGet opts "interval" = some (JVal.s s)) (h2 : s ≠ "")
    (h3 : ALLOWED_INTERVALS.contains s = false) :
    intervalFrom opts = Except.error ("invalid interval: " ++ s) := by
  simp [intervalFrom, h, jsTruthy, h2]
  intro hm
  have hc : ALLOWED_INTERVALS.contains s = true := List.elem_eq_true_of_mem hm
  rw [h3] at hc
  exact Bool.false_ne_true hc

theorem intervalFrom_allowed (opts : Opts) (s : String)
    (h : objGet opts "interval" = some (JVal.s s)) (h2 : s ≠ "")
    (h3 : ALLOWED_INTERVALS.contains s = true) :
    intervalFrom opts = Except.ok s := by
  simp [intervalFrom, h, jsTruthy, h2]
  exact List.mem_of_elem_eq_true h3

/-- C5: every PercentageEntry satisfies pct = 0 when total = 0 and
pct = count/total*100 otherwise, and whenever count ≤ total the pct lies
in [0, 100]. -/
theorem c5_percentage_formula_and_bounds :
    ∀ (subset set : CountMap) (ck : Bool), ∀ e ∈ calculatePercentages subset set ck,
      e.pct = (if e.total = 0 then 0 else (e.count : Rat) / (e.total : Rat) * 100) ∧
      (e.count ≤ e.total → 0 ≤ e.pct ∧ e.pct ≤ 100) := by
  intro subset set ck e he
  obtain ⟨hc, ht, hp⟩ := entry_fields_calculatePercentages subset set ck e he
  refine ⟨hp, fun hle => ?_⟩
  rw [hp]
  by_cases h0 : e.total = 0
  · simp [h0]
  · rw [if_neg h0]
    have hpos : (0 : Rat) < (e.total : Rat) := by
      exact_mod_cast Nat.pos_of_ne_zero h0
    constructor
    · positivity
    · have h1 : (e.count : Rat) / (e.total : Rat) ≤ 1 :=
        (div_le_one hpos).mpr (by exact_mod_cast hle)
      calc (e.count : Rat) / (e.total : Rat) * 100 ≤ 1 * 100 :=
            mul_le_mul_of_nonneg_right h1 (by norm_num)
        _ = 100 := by norm_num

/-- Witness for C5 at a concrete filtered/unfiltered pair. -/
theorem c5_witness :
    ((⟨"a", 1, 2, 50, none⟩ : Entry).pct =
      (if (⟨"a", 1, 2, 50, none⟩ : Entry).total = 0 then 0
       else ((⟨"a", 1, 2, 50, none⟩ : Entry).count : Rat) /
         ((⟨"a", 1, 2, 50, none⟩ : Entry).total : Rat) * 100)) ∧
    (0 ≤ (⟨"a", 1, 2, 50, none⟩ : Entry).pct ∧ (⟨"a", 1, 2, 50, none⟩ : Entry).pct ≤ 100) := by
  have hmem : (⟨"a", 1, 2, 50, none⟩ : Entry) ∈ calculatePercentages [("a", 1)] [("a", 2)] false := by
    simp [calculatePercentages, countKeys, countsGet, assocGet, List.find?]
    norm_num
  have h := c5_percentage_formula_and_bounds [("a", 1)] [("a", 2)] false _ hmem
  exact ⟨h.1, h.2 (by norm_num)⟩

/-- C3: a failed fetch leaves the cache unchanged, and on a miss the
error is propagated to the caller after the single fetch attempt. -/
theorem c3_failed_fetch_not_cached (V : Type) (st : CacheState V) (name : String)
    (data : Opts) (e : String) :
    (cached st name data (Except.error e)).cache = st ∧
    (cacheGet st (cacheKey name data) = none →
      (cached st name data (Except.error e)).result = Except.error e ∧
      (cached st name data (Except.error e)).fetchCount = 1) := by
  unfold cached
  cases h : cacheGet st (cacheKey name data) <;> simp [h]

/-- Witness for C3 on an empty cache. -/
theorem c3_witness :
    (cached (⟨[]⟩ : CacheState Nat) "op" [] (Except.error "boom")).result = Except.error "boom" ∧
    (cached (⟨[]⟩ : CacheState Nat) "op" [] (Except.error "boom")).fetchCount = 1 ∧
    (cached (⟨[]⟩ : CacheState Nat) "op" [] (Except.error "boom")).cache = ⟨[]⟩ := by
  have h := c3_failed_fetch_not_cached Nat ⟨[]⟩ "op" [] "boom"
  have h2 := h.2 rfl
  exact ⟨h2.1, h2.2, h.1⟩

/-- C4 counterexample: the empty-string interval is outside the allowed
set, yet the request is accepted — it normalizes to month (the || is a
truthiness test, not an absence test) and the fetch runs. -/
theorem c4_counterexample :
    ALLOWED_INTERVALS.contains "" = false ∧
    intervalFrom [("interval", JVal.s "")] = Except.ok "month" ∧
    (summaryRun exIsCurrent exInstant ⟨[]⟩ [("interval", JVal.s "")]
      (Except.ok exAgg)).fetchCount = 1 := by
  refine ⟨by decide, by decide, ?_⟩
  decide

/-- C4 as amended: an absent interval normalizes to month; a present,
truthy interval outside the allowed set makes summary and hits fail
synchronously (no fetch, cache and opts untouched); year is accepted. -/
theorem c4_amended_interval_validation :
    (∀ opts : Opts, objGet opts "interval" = none → intervalFrom opts = Except.ok "month") ∧
    (∀ (opts : Opts) (s : String), objGet opts "interval" = some (JVal.s s) → s ≠ "" →
      ALLOWED_INTERVALS.contains s = false →
      (∀ (isCurrent : String → Bool) (instant : String → Int) (st : CacheState SummaryResult)
          (agg : AggResponse),
        summaryRun isCurrent instant st opts (Except.ok agg)
          = ⟨Except.error ("invalid interval: " ++ s), st, 0, opts⟩) ∧
      (∀ (st2 : CacheState HitsResult) (hr : RawHitsResponse),
        hitsRun st2 opts (Except.ok hr)
          = ⟨Except.error ("invalid interval: " ++ s), st2, 0, opts⟩)) ∧
    (∀ opts : Opts, objGet opts "interval" = some (JVal.s "year") →
      intervalFrom opts = Except.ok "year") := by
  refine ⟨fun opts h => intervalFrom_absent opts h, fun opts s h h2 h3 => ⟨?_, ?_⟩,
    fun opts h => intervalFrom_allowed opts "year" h (by decide) (by decide)⟩
  · intro isCurrent instant st agg
    simp [summaryRun, intervalFrom_invalid opts s h h2 h3]
  · intro st2 hr
    simp [hitsRun, intervalFrom_invalid opts s h h2 h3]

/-- Witness for C4 as amended at concrete option bags. -/
theorem c4_witness :
    intervalFrom [] = Except.ok "month" ∧
    summaryRun exIsCurrent exInstant ⟨[]⟩ [("interval", JVal.s "week")] (Except.ok exAgg)
      = ⟨Except.error ("invalid interval: " ++ "week"), ⟨[]⟩, 0, [("interval", JVal.s "week")]⟩ ∧
    hitsRun ⟨[]⟩ [("interval", JVal.s "week")] (Except.ok ⟨[], 0⟩)
      = ⟨Except.error ("invalid interval: " ++ "week"), ⟨[]⟩, 0, [("interval", JVal.s "week")]⟩ ∧
    intervalFrom [("interval", JVal.s "year")] = Except.ok "year" := by
  have h := c4_amended_interval_validation
  exact ⟨h.1 [] rfl,
    (h.2.1 _ "week" (by decide) (by decide) (by decide)).1 exIsCurrent exInstant ⟨[]⟩ exAgg,
    (h.2.1 _ "week" (by decide) (by decide) (by decide)).2 ⟨[]⟩ ⟨[], 0⟩,
    h.2.2 _ (by decide)⟩

/-- C1 counterexample: two option bags holding the same fields with the
same values (a permutation of one another, agreeing under lookup on both
fields) produce different cache keys when their serialization order
differs. -/
theorem c1_counterexample :
    List.Perm ([("query", JVal.s "a"), ("interval", JVal.s "month")] : Opts)
        [("interval", JVal.s "month"), ("query", JVal.s "a")] ∧
    objGet [("query", JVal.s "a"), ("interval", JVal.s "month")] "query"
        = objGet [("interval", JVal.s "month"), ("query", JVal.s "a")] "query" ∧
    objGet [("query", JVal.s "a"), ("interval", JVal.s "month")] "interval"
        = objGet [("interval", JVal.s "month"), ("query", JVal.s "a")] "interval" ∧
    cacheKey "summary" [("query", JVal.s "a"), ("interval", JVal.s "month")]
        ≠ cacheKey "summary" [("interval", JVal.s "month"), ("query", JVal.s "a")] := by
  refine ⟨by decide, by decide, by decide, by decide⟩

/-- C1 as amended: the cache key is operationName, a colon, and the
JSON serialization of the options in their field order; two option bags
share a key exactly when their serializations coincide (so field order
does matter), and bags differing in the query value get distinct keys. -/
theorem c1_amended_key_from_serialization :
    (∀ (name : String) (o1 o2 : Opts),
        cacheKey name o1 = cacheKey name o2 ↔ jsonStringify o1 = jsonStringify o2) ∧
    cacheKey "summary" [("query", JVal.s "a")] ≠ cacheKey "summary" [("query", JVal.s "b")] := by
  constructor
  · intro name o1 o2
    constructor
    · intro h
      simp only [cacheKey] at h
      have hd := congrArg String.data h
      rw [String.data_append, String.data_append, String.data_append, String.data_append] at hd
      exact String.ext (List.append_cancel_left hd)
    · intro h
      rw [cacheKey, cacheKey, h]
  · decide

/-- Witness for C1 as amended: equal serializations give equal keys. -/
theorem c1_witness :
    cacheKey "summary" ([("query", JVal.s "a")] : Opts)
      = cacheKey "summary" [("query", JVal.s "a")] :=
  (c1_amended_key_from_serialization.1 "summary" _ _).mpr rfl

/-- C2: under single-threaded repetition with the same opts and the same
index response, the second summary call returns the first call's result
without running the fetch and without changing the cache; on a miss with
a valid interval the first call runs the fetch once, returns the shaped
response, and stores it under the computed key. -/
theorem c2_summary_idempotent_cache_hit :
    ∀ (isCurrent : String → Bool) (instant : String → Int) (st : CacheState SummaryResult)
      (opts : Opts) (agg : AggResponse),
      (summaryRun isCurrent instant (summaryRun isCurrent instant st opts (Except.ok agg)).cache
          opts (Except.ok agg)).result
        = (summaryRun isCurrent instant st opts (Except.ok agg)).result ∧
      (summaryRun isCurrent instant (summaryRun isCurrent instant st opts (Except.ok agg)).cache
          opts (Except.ok agg)).fetchCount = 0 ∧
      (summaryRun isCurrent instant (summaryRun isCurrent instant st opts (Except.ok agg)).cache
          opts (Except.ok agg)).cache
        = (summaryRun isCurrent instant st opts (Except.ok agg)).cache ∧
      (∀ iv : String, intervalFrom opts = Except.ok iv →
        cacheGet st (cacheKey "summary" (objSet opts "interval" (JVal.s iv))) = none →
        (summaryRun isCurrent instant st opts (Except.ok agg)).fetchCount = 1 ∧
        (summaryRun isCurrent instant st opts (Except.ok agg)).result
          = Except.ok (buildResponse isCurrent instant agg) ∧
        cacheGet (summaryRun isCurrent instant st opts (Except.ok agg)).cache
            (cacheKey "summary" (objSet opts "interval" (JVal.s iv)))
          = some (buildResponse isCurrent instant agg)) := by
  intro isCurrent instant st opts agg
  cases hiv : intervalFrom opts with
  | error e => simp [summaryRun, hiv]
  | ok iv =>
    cases hg : cacheGet st (cacheKey "summary" (objSet opts "interval" (JVal.s iv))) with
    | some v => simp [summaryRun, hiv, cached, hg]
    | none =>
      have hkey := cacheGet_cacheSet_self st
        (cacheKey "summary" (objSet opts "interval" (JVal.s iv)))
        (buildResponse isCurrent instant agg)
      simp [summaryRun, hiv, cached, hg, hkey, Except.map]

/-- Witness for C2 on an empty cache with a concrete option bag. -/
theorem c2_witness :
    (summaryRun exIsCurrent exInstant
        (summaryRun exIsCurrent exInstant ⟨[]⟩ [("query", JVal.s "a")] (Except.ok exAgg)).cache
        [("query", JVal.s "a")] (Except.ok exAgg)).result
      = (summaryRun exIsCurrent exInstant ⟨[]⟩ [("query", JVal.s "a")] (Except.ok exAgg)).result ∧
    (summaryRun exIsCurrent exInstant
        (summaryRun exIsCurrent exInstant ⟨[]⟩ [("query", JVal.s "a")] (Except.ok exAgg)).cache
        [("query", JVal.s "a")] (Except.ok exAgg)).fetchCount = 0 ∧
    (summaryRun exIsCurrent exInstant ⟨[]⟩ [("query", JVal.s "a")] (Except.ok exAgg)).fetchCount
      = 1 := by
  have h := c2_summary_idempotent_cache_hit exIsCurrent exInstant ⟨[]⟩ [("query", JVal.s "a")] exAgg
  exact ⟨h.1, h.2.1, (h.2.2.2 "month" (by decide) rfl).1⟩

/-- C10: summary and hits write the normalized interval back into the
caller's opts object before the cache key is computed, so the caller's
object is changed and the written interval takes part in the key under
which the result is stored. -/
theorem c10_summary_hits_mutate_opts :
    ∀ (opts : Opts), objGet opts "interval" = none →
    ∀ (isCurrent : String → Bool) (instant : String → Int) (st : CacheState SummaryResult)
      (agg : AggResponse) (st2 : CacheState HitsResult) (hr : RawHitsResponse),
      (summaryRun isCurrent instant st opts (Except.ok agg)).opts
          = objSet opts "interval" (JVal.s "month") ∧
      objGet (summaryRun isCurrent instant st opts (Except.ok agg)).opts "interval"
          = some (JVal.s "month") ∧
      (summaryRun isCurrent instant st opts (Except.ok agg)).opts ≠ opts ∧
      (hitsRun st2 opts (Except.ok hr)).opts = objSet opts "interval" (JVal.s "month") ∧
      (hitsRun st2 opts (Except.ok hr)).opts ≠ opts ∧
      (cacheGet st (cacheKey "summary" (objSet opts "interval" (JVal.s "month"))) = none →
        cacheGet (summaryRun isCurrent instant st opts (Except.ok agg)).cache
            (cacheKey "summary" (objSet opts "interval" (JVal.s "month")))
          = some (buildResponse isCurrent instant agg)) := by
  intro opts h isCurrent instant st agg st2 hr
  have hiv := intervalFrom_absent opts h
  have hobj : objGet (objSet opts "interval" (JVal.s "month")) "interval"
      = some (JVal.s "month") :=
    assocGet_assocSet_self opts "interval" (JVal.s "month")
  have hne : objSet opts "interval" (JVal.s "month") ≠ opts := by
    intro heq
    rw [heq, h] at hobj
    exact Option.noConfusion hobj
  refine ⟨?_, ?_, ?_, ?_, ?_, ?_⟩
  · simp [summaryRun, hiv]
  · simpa [summaryRun, hiv] using hobj
  · simpa [summaryRun, hiv] using hne
  · simp [hitsRun, hiv]
  · simpa [hitsRun, hiv] using hne
  · intro hmiss
    simp [summaryRun, hiv, cached, hmiss, cacheGet_cacheSet_self, Except.map]

/-- Witness for C10 on an empty cache with a concrete option bag. -/
theorem c10_witness :
    (summaryRun exIsCurrent exInstant ⟨[]⟩ [("query", JVal.s "a")] (Except.ok exAgg)).opts
        = objSet [("query", JVal.s "a")] "interval" (JVal.s "month") ∧
    (summaryRun exIsCurrent exInstant ⟨[]⟩ [("query", JVal.s "a")] (Except.ok exAgg)).opts
        ≠ [("query", JVal.s "a")] ∧
    cacheGet (summaryRun exIsCurrent exInstant ⟨[]⟩ [("query", JVal.s "a")] (Except.ok exAgg)).cache
        (cacheKey "summary" (objSet [("query", JVal.s "a")] "interval" (JVal.s "month")))
        = some (buildResponse exIsCurrent exInstant exAgg) := by
  have h := c10_summary_hits_mutate_opts [("query", JVal.s "a")] (by decide)
    exIsCurrent exInstant ⟨[]⟩ exAgg ⟨[]⟩ ⟨[], 0⟩
  exact ⟨h.1, h.2.2.1, h.2.2.2.2.2 rfl⟩

/-- C6 counterexample: a timeline spanning three buckets (t0, t1, t2,
so n = 2) yields a one-entry timeline, not an empty one — the "empty if
n ≤ 2" clause of the claim contradicts the n-1 size the trim produces. -/
theorem c6_counterexample :
    (timelineSorted exInstant exAgg).length = 3 ∧
    (buildResponse exIsCurrent exInstant exAgg).timeline.length = 1 ∧
    (buildResponse exIsCurrent exInstant exAgg).timeline ≠ [] := by
  exact ⟨by decide, by decide, by decide⟩

/-- C6 as amended: the returned timeline is the chronologically sorted
entry sequence with its first and last elements dropped — size n-1 for
a sorted sequence t0..tn (n at least 1), empty when n ≤ 1 — and it
remains sorted ascending by the bucket instant. -/
theorem c6_amended_timeline_trim :
    ∀ (isCurrent : String → Bool) (instant : String → Int) (r : AggResponse),
      (buildResponse isCurrent instant r).timeline
          = ((timelineSorted instant r).drop 1).dropLast ∧
      (buildResponse isCurrent instant r).timeline.length
          = (timelineSorted instant r).length - 2 ∧
      (∀ (i : Nat) (hi : i < (buildResponse isCurrent instant r).timeline.length)
          (hs : i + 1 < (timelineSorted instant r).length),
        (buildResponse isCurrent instant r).timeline.get ⟨i, hi⟩
          = (timelineSorted instant r).get ⟨i + 1, hs⟩) ∧
      List.Pairwise (timelineLe instant) (buildResponse isCurrent instant r).timeline := by
  intro isCurrent instant r
  have h1 : (buildResponse isCurrent instant r).timeline
      = ((timelineSorted instant r).drop 1).dropLast := rfl
  refine ⟨h1, ?_, ?_, ?_⟩
  · rw [h1, List.length_dropLast, List.length_drop]
    omega
  · intro i hi hs
    show (((timelineSorted instant r).drop 1).dropLast).get
        ⟨i, h1 ▸ hi⟩ = (timelineSorted instant r).get ⟨i + 1, hs⟩
    rw [List.get_eq_getElem, List.get_eq_getElem, List.getElem_dropLast,
      List.getElem_drop]
    simp [Nat.add_comm]
  · rw [h1]
    exact List.Pairwise.sublist
      (((timelineSorted instant r).drop 1).dropLast_sublist.trans
        (List.drop_sublist 1 (timelineSorted instant r)))
      (List.sorted_insertionSort (timelineLe instant) (timelineUnsorted r))

/-- Witness for C6 as amended at a concrete three-bucket response. -/
theorem c6_witness :
    (buildResponse exIsCurrent exInstant exAgg).timeline
        = ((timelineSorted exInstant exAgg).drop 1).dropLast ∧
    (buildResponse exIsCurrent exInstant exAgg).timeline.length
        = (timelineSorted exInstant exAgg).length - 2 ∧
    (buildResponse exIsCurrent exInstant exAgg).timeline.get
        ⟨0, (by decide : 0 < (buildResponse exIsCurrent exInstant exAgg).timeline.length)⟩
      = (timelineSorted exInstant exAgg).get
        ⟨1, (by decide : 1 < (timelineSorted exInstant exAgg).length)⟩ := by
  have h := c6_amended_timeline_trim exIsCurrent exInstant exAgg
  exact ⟨h.1, h.2.1, h.2.2.1 0 (by decide) (by decide)⟩

/-- C8 counterexample: a raw hit whose highlight object carries an empty
fragment list yields an undefined highlight (modelled as none), neither
a first fragment nor the empty string. -/
theorem c8_counterexample :
    (buildHit ⟨"h1", 0, some [], []⟩).highlight = none := rfl

/-- C8 as amended: with no highlight object the built highlight is the
empty string; with a highlight carrying at least one fragment it is the
first fragment; with a highlight carrying no fragment it is undefined. -/
theorem c8_amended_highlight_extraction :
    ∀ h : RawHit,
      (h.highlight = none → (buildHit h).highlight = some "") ∧
      (∀ (f : String) (fs : List String), h.highlight = some (f :: fs) →
        (buildHit h).highlight = some f) ∧
      (h.highlight = some [] → (buildHit h).highlight = none) := by
  intro h
  refine ⟨fun hn => ?_, fun f fs hf => ?_, fun he => ?_⟩
  · simp [buildHit, hn]
  · simp [buildHit, hf]
  · simp [buildHit, he]

/-- Witness for C8 as amended at three concrete raw hits. -/
theorem c8_witness :
    (buildHit ⟨"a", 0, none, []⟩).highlight = some "" ∧
    (buildHit ⟨"b", 0, some ["x", "y"], []⟩).highlight = some "x" ∧
    (buildHit ⟨"c", 0, some [], []⟩).highlight = none :=
  ⟨(c8_amended_highlight_extraction _).1 rfl,
   (c8_amended_highlight_extraction _).2.1 "x" ["y"] rfl,
   (c8_amended_highlight_extraction _).2.2 rfl⟩

/-- C7 counterexample: a party key present in the filtered (subset)
aggregation but rejected by the current-party predicate gets no entry in
the parties output, so parties is not keyed by exactly the subset keys. -/
theorem c7_counterexample :
    countKeys (parseAggregation exAgg2.filteredParties) = ["Old"] ∧
    (buildResponse exIsCurrent exInstant exAgg2).parties = [] := by
  exact ⟨by decide, by decide⟩

/-- C7 as amended: people entries are keyed by exactly the subset keys
(one entry per key); parties entries are keyed by exactly the subset
keys the current-party predicate accepts; the timeline entry set (before
sorting and trimming) carries exactly one entry per key of the union of
the two time aggregations, with count or total 0 for the side missing
the key. -/
theorem c7_amended_entry_key_spaces :
    ∀ (r : AggResponse) (isCurrent : String → Bool),
      (peopleEntries r).map Entry.key
          = countKeys (parseAggregation (r.filteredPeople.map PersonBucket.toBucket)) ∧
      ((peopleEntries r).map Entry.key).Nodup ∧
      (partiesEntries isCurrent r).map Entry.key
          = (countKeys (parseAggregation r.filteredParties)).filter isCurrent ∧
      (∀ k : String, (∃ e ∈ timelineUnsorted r, e.key = k) ↔
          (k ∈ countKeys (parseAggregation r.filteredTimeline)
            ∨ k ∈ countKeys (parseAggregation r.timeline))) ∧
      ((timelineUnsorted r).map Entry.key).Nodup ∧
      (∀ e ∈ timelineUnsorted r,
        e.count = countsGet (parseAggregation r.filteredTimeline) e.key ∧
        e.total = countsGet (parseAggregation r.timeline) e.key ∧
        (assocGet (parseAggregation r.filteredTimeline) e.key = none → e.count = 0) ∧
        (assocGet (parseAggregation r.timeline) e.key = none → e.total = 0)) := by
  intro r isCurrent
  have hpk : (peopleEntries r).map Entry.key
      = countKeys (parseAggregation (r.filteredPeople.map PersonBucket.toBucket)) := by
    have h := map_key_calculatePercentages
      (parseAggregation (r.filteredPeople.map PersonBucket.toBucket))
      (parseAggregation r.people) false
    simpa [peopleEntries] using h
  have htk : (timelineUnsorted r).map Entry.key
      = dedupFirst (countKeys (parseAggregation r.filteredTimeline)
          ++ countKeys (parseAggregation r.timeline)) := by
    have h := map_key_calculatePercentages
      (parseAggregation r.filteredTimeline) (parseAggregation r.timeline) true
    simpa [timelineUnsorted] using h
  refine ⟨hpk, ?_, ?_, ?_, ?_, ?_⟩
  · rw [hpk]
    exact nodup_countKeys_parseAggregation _
  · rw [partiesEntries, partiesEntriesAll, calculatePercentages]
    simp only [Bool.false_eq_true, if_false]
    rw [List.filter_map, List.map_map]
    rw [List.filter_congr (fun a _ => rfl :
      ∀ a ∈ countKeys (parseAggregation r.filteredParties),
        ((fun e => isCurrent e.key) ∘ fun key =>
          ({ key := key
             count := countsGet (parseAggregation r.filteredParties) key
             total := countsGet (parseAggregation r.parties) key
             pct := if countsGet (parseAggregation r.parties) key = 0 then 0
                    else (countsGet (parseAggregation r.filteredParties) key : Rat)
                      / (countsGet (parseAggregation r.parties) key : Rat) * 100 } : Entry)) a
          = isCurrent a)]
    exact (List.map_congr_left fun a _ => rfl).trans (List.map_id _)
  · intro k
    rw [show (∃ e ∈ timelineUnsorted r, e.key = k)
        ↔ k ∈ (timelineUnsorted r).map Entry.key from List.mem_map.symm]
    rw [htk]
    exact (mem_dedupFirst _ _).trans List.mem_append
  · rw [htk]
    exact nodup_dedupFirst _
  · intro e he
    obtain ⟨hc, ht, _⟩ := entry_fields_calculatePercentages
      (parseAggregation r.filteredTimeline) (parseAggregation r.timeline) true e he
    refine ⟨hc, ht, fun hn => ?_, fun hn => ?_⟩
    · rw [hc, countsGet, hn]
      rfl
    · rw [ht, countsGet, hn]
      rfl

/-- Witness for C7 as amended at a concrete response whose unfiltered
timeline holds a key the filtered one lacks. -/
theorem c7_witness :
    (peopleEntries exAgg3).map Entry.key
        = countKeys (parseAggregation (exAgg3.filteredPeople.map PersonBucket.toBucket)) ∧
    (partiesEntries exIsCurrent exAgg3).map Entry.key
        = (countKeys (parseAggregation exAgg3.filteredParties)).filter exIsCurrent ∧
    (∃ e ∈ timelineUnsorted exAgg3, e.key = "4444") ∧
    (⟨"4444", 0, 8, 0, none⟩ : Entry).count
        = countsGet (parseAggregation exAgg3.filteredTimeline) "4444" ∧
    (⟨"4444", 0, 8, 0, none⟩ : Entry).count = 0 := by
  have h := c7_amended_entry_key_spaces exAgg3 exIsCurrent
  have hmem : (⟨"4444", 0, 8, 0, none⟩ : Entry) ∈ timelineUnsorted exAgg3 := by
    simp [timelineUnsorted, calculatePercentages, parseAggregation, exAgg3, countKeys,
      countsGet, assocGet, assocSet, dedupFirst, List.find?, bucketKey]
  have hf := h.2.2.2.2.2 _ hmem
  exact ⟨h.1, h.2.2.1, (h.2.2.2.1 "4444").mpr (Or.inr (by decide)),
    hf.1, hf.2.2.1 (by decide)⟩

/-- C9: getContext returns documents of the requested transcript whose
order lies in the inclusive range, sorted ascending by order; it is
empty (not an error) when nothing matches, and when the matching
documents carry distinct order values it is exactly the sorted matching
set (the size cap end - start + 1 cannot truncate it). -/
theorem c9_getContext_ordered_slice :
    ∀ (store : List Doc) (id : String) (s e : Int),
      (∀ d ∈ getContext store id s e, d.transcript = id ∧ s ≤ d.order ∧ d.order ≤ e) ∧
      List.Pairwise byOrderAsc (getContext store id s e) ∧
      (store.filter (ctxPred id s e) = [] → getContext store id s e = []) ∧
      (((store.filter (ctxPred id s e)).map Doc.order).Nodup →
        getContext store id s e = (store.filter (ctxPred id s e)).insertionSort byOrderAsc ∧
        List.Perm (getContext store id s e) (store.filter (ctxPred id s e))) := by
  intro store id s e
  refine ⟨?_, ?_, ?_, ?_⟩
  · intro d hd
    have hd2 : d ∈ (store.filter (ctxPred id s e)).insertionSort byOrderAsc :=
      List.mem_of_mem_take hd
    have hd3 : d ∈ store.filter (ctxPred id s e) :=
      (List.perm_insertionSort byOrderAsc _).mem_iff.mp hd2
    have hp := List.of_mem_filter hd3
    simp only [ctxPred, Bool.and_eq_true, beq_iff_eq, decide_eq_true_eq] at hp
    exact ⟨hp.1.1, hp.1.2, hp.2⟩
  · exact List.Pairwise.sublist (List.take_sublist _ _)
      (List.sorted_insertionSort byOrderAsc _)
  · intro hnil
    simp [getContext, esOrderedSlice, hnil]
  · intro hnodup
    have hlen : (store.filter (ctxPred id s e)).length ≤ (e - s + 1).toNat := by
      have hsub : ((store.filter (ctxPred id s e)).map Doc.order).toFinset
          ⊆ Finset.Icc s e := by
        intro x hx
        rw [List.mem_toFinset] at hx
        rcases List.mem_map.mp hx with ⟨d, hd, hdx⟩
        have hp := List.of_mem_filter hd
        simp only [ctxPred, Bool.and_eq_true, beq_iff_eq, decide_eq_true_eq] at hp
        rw [Finset.mem_Icc]
        exact ⟨hdx ▸ hp.1.2, hdx ▸ hp.2⟩
      have hcard : ((store.filter (ctxPred id s e)).map Doc.order).toFinset.card
          = (store.filter (ctxPred id s e)).length := by
        rw [List.toFinset_card_of_nodup hnodup, List.length_map]
      have hle := Finset.card_le_card hsub
      rw [hcard, Int.card_Icc] at hle
      have heq : e + 1 - s = e - s + 1 := by ring
      rw [heq] at hle
      exact hle
    have hsortlen : ((store.filter (ctxPred id s e)).insertionSort byOrderAsc).length
        = (store.filter (ctxPred id s e)).length :=
      (List.perm_insertionSort byOrderAsc _).length_eq
    have htake : getContext store id s e
        = (store.filter (ctxPred id s e)).insertionSort byOrderAsc := by
      rw [getContext, esOrderedSlice]
      exact List.take_of_length_le (by rw [hsortlen]; exact hlen)
    exact ⟨htake, htake ▸ List.perm_insertionSort byOrderAsc _⟩

/-- Witness for C9: an empty match yields the empty sequence, and the
spec's 3..5 slice of an ordered transcript yields orders 3, 4, 5
ascending. -/
theorem c9_witness :
    getContext [⟨"T2", 0, "x"⟩] "T1" 3 5 = [] ∧
    getContext exStore "T1" 3 5 = [⟨"T1", 3, "c"⟩, ⟨"T1", 4, "d"⟩, ⟨"T1", 5, "e"⟩] := by
  constructor
  · exact (c9_getContext_ordered_slice [⟨"T2", 0, "x"⟩] "T1" 3 5).2.2.1 (by decide)
  · have h := ((c9_getContext_ordered_slice exStore "T1" 3 5).2.2.2 (by decide)).1
    rw [h]
    decide

end HdoSearch
